import Mathlib

/-!
# Verification of the slorado basecaller core

A shallow embedding of `src/basecaller_main.cpp` of the slorado repository
(a simplified nanopore basecaller), together with models of the pipeline
components the spec describes (Chunker, Signal Preprocessor, Stitcher,
Pipeline Driver).  Components whose code is not part of the reviewed
source tree (they live in other translation units) are modelled from the
specification; every such definition carries a doc comment starting with
`Modelled from the spec:`.

Machine integers from the C code (`int`, `int32_t`) are embedded as `Int`;
signal samples are embedded as `ℚ` (rationals) since the properties proved
here do not depend on floating-point rounding.
-/

namespace Slorado

/-- The option record `opt_t` as used by `basecaller_main`.  Fields mirror
the C struct members touched in `src/basecaller_main.cpp`; C `int`s are
embedded as `Int`. -/
structure OptT where
  batchSize : Int
  batchSizeBytes : Int
  numThread : Int
  verbosity : Int
  device : String
  chunkSize : Int
  overlap : Int
  outPath : String
  numRunners : Int
  debugBreak : Int
  flagPrf : Bool
  flagAcc : Bool
  flagEfq : Bool
deriving DecidableEq

/-- Modelled from the spec: `init_opt` (defaults) is code of the repository
outside the reviewed source; the default values are taken from the option
table comments and the help text of `src/basecaller_main.cpp`
(threads 8, batch size 512, chunk size 8000, overlap 150, device cpu,
one runner, debug-break unset). -/
def defaultOpt : OptT where
  batchSize := 512
  batchSizeBytes := 20000000
  numThread := 8
  verbosity := 1
  device := "cpu"
  chunkSize := 8000
  overlap := 150
  outPath := "-"
  numRunners := 1
  debugBreak := -1
  flagPrf := false
  flagAcc := false
  flagEfq := false

/-- One command-line option event, as delivered by `getopt_long` to the
parse loop of `basecaller_main` (lines 118-185).  Numeric arguments carry
the integer `atoi`/`mm_parse_num` produced; `optO` carries whether the
`fopen` of the output path succeeded. -/
inductive CliTok where
  | optB (v : Int)
  | optK (v : Int)
  | optT (v : Int)
  | optVerb (v : Int)
  | optX (s : String)
  | optC (v : Int)
  | optP (v : Int)
  | optO (openOk : Bool)
  | optR (v : Int)
  | optVersion
  | optH
  | optDebugBreak (v : Int)
  | optProfileCpu (b : Bool)
  | optAccel (b : Bool)
  | optEmitFastq (b : Bool)
deriving DecidableEq

/-- Outcome of argument handling in `basecaller_main` up to line 214:
either the process exits (failure from a validation/fopen error, success
from `-V`, help to stdout then success, help to stderr then failure), or
it proceeds to open the input and run the main loop with the final
options. -/
inductive ParseOutcome where
  | exitFailure
  | versionExit
  | helpStdoutExit
  | helpStderrExit
  | proceed (o : OptT)
deriving DecidableEq

/-- One iteration of the option-processing loop (lines 118-185).  The
state is the option record together with the `fp_help == stdout` flag set
by `-h`.  `Except` models the `exit()` calls inside the loop.  The
`--accel` branch is modelled for the accelerator build; in the CPU build
it only warns, which no claim depends on. -/
def applyTok (st : OptT × Bool) (t : CliTok) : Except ParseOutcome (OptT × Bool) :=
  match t with
  | .optB v =>
      if v ≤ 0 then .error .exitFailure
      else .ok ({ st.1 with batchSizeBytes := v }, st.2)
  | .optK v =>
      if v < 1 then .error .exitFailure
      else .ok ({ st.1 with batchSize := v }, st.2)
  | .optT v =>
      if v < 1 then .error .exitFailure
      else .ok ({ st.1 with numThread := v }, st.2)
  | .optVerb v => .ok ({ st.1 with verbosity := v }, st.2)
  | .optX s => .ok ({ st.1 with device := s }, st.2)
  | .optC v =>
      if v < 1 then .error .exitFailure
      else .ok ({ st.1 with chunkSize := v }, st.2)
  | .optP v =>
      if v < 1 then .error .exitFailure
      else .ok ({ st.1 with overlap := v }, st.2)
  | .optO ok =>
      if ok then .ok (st.1, st.2) else .error .exitFailure
  | .optR v =>
      if v < 1 then .error .exitFailure
      else .ok ({ st.1 with numRunners := v }, st.2)
  | .optVersion => .error .versionExit
  | .optH => .ok (st.1, true)
  | .optDebugBreak v => .ok ({ st.1 with debugBreak := v }, st.2)
  | .optProfileCpu b => .ok ({ st.1 with flagPrf := b }, st.2)
  | .optAccel b => .ok ({ st.1 with flagAcc := b }, st.2)
  | .optEmitFastq b => .ok ({ st.1 with flagEfq := b }, st.2)

/-- The option-processing loop, folded over the option events in argv
order. -/
def parseLoop (o : OptT) (helpOut : Bool) : List CliTok → Except ParseOutcome (OptT × Bool)
  | [] => .ok (o, helpOut)
  | t :: ts =>
      match applyTok (o, helpOut) t with
      | .error e => .error e
      | .ok (o', h') => parseLoop o' h' ts

/-- Argument handling of `basecaller_main` (lines 114-214): option loop,
then the positional-argument / help check
`if (argc - optind != 2 || fp_help == stdout)`.  `npos` is
`argc - optind`, the number of positional arguments.  The `model == NULL`
and `data == NULL` checks after this point are unreachable when
`npos = 2` and are not modelled. -/
def parseArgs (ts : List CliTok) (npos : Nat) : ParseOutcome :=
  match parseLoop defaultOpt false ts with
  | .error e => e
  | .ok (o, helpOut) =>
      if npos != 2 || helpOut then
        if helpOut then .helpStdoutExit else .helpStderrExit
      else .proceed o

/-- Configuration of one `ModelRunner` as constructed at line 249 of
`src/basecaller_main.cpp`. -/
structure RunnerCfg where
  modelPath : String
  device : String
  chunkSize : Int
  batchSize : Int
deriving DecidableEq

/-- The model runners constructed by `basecaller_main`: line 249 constructs
exactly one `ModelRunner<GPUDecoder>(model, opt.device, opt.chunk_size,
opt.batch_size)`, whatever `opt.num_runners` is. -/
def createdRunners (modelPath : String) (o : OptT) : List RunnerCfg :=
  [⟨modelPath, o.device, o.chunkSize, o.batchSize⟩]

/-- A chunk: a window of the normalized signal, recorded as start offset
and length. -/
structure Chunk where
  start : Nat
  len : Nat
deriving DecidableEq

/-- Modelled from the spec: the number of stepped chunk starts after the
first.  `chunks_from_tensor` is code of the repository outside the
reviewed source; per spec section 4.2 the chunker starts at offset 0,
steps by `s = C - O`, and clips the final chunk to the remaining samples,
so chunk starts are `0, s, 2s, ...` until a chunk reaches the signal end:
`numChunks L C s` is the least `i` with `i*s + C ≥ L`. -/
def numChunks (L C s : Nat) : Nat :=
  if L ≤ C then 0 else (L - C + s - 1) / s

/-- Modelled from the spec: `chunks_from_tensor` (spec section 4.2).  For a
normalized signal of length `L`, chunk size `C` and overlap `O`, chunk `i`
starts at `i*(C-O)` and has length `min C (L - i*(C-O))` (only the final
chunk is clipped). -/
def chunksOf (L C O : Nat) : List Chunk :=
  (List.range (numChunks L C (C - O) + 1)).map
    (fun i => ⟨i * (C - O), min C (L - i * (C - O))⟩)

/-- Modelled from the spec: the robust center statistic of `scale_signal`
(spec section 4.1, "a robust center ... (e.g., median ...)"), as the middle
element of the sorted sample list (0 for an empty list). -/
def medianQ (xs : List ℚ) : ℚ :=
  (xs.insertionSort (fun a b => a ≤ b)).getD ((xs.length - 1) / 2) 0

/-- Modelled from the spec: the robust spread statistic of `scale_signal`
(spec section 4.1, "a deviation measure"), as the median absolute
deviation from the median. -/
def spreadQ (xs : List ℚ) : ℚ :=
  medianQ (xs.map (fun x => |x - medianQ xs|))

/-- Modelled from the spec: the divisor used by `scale_signal`, with the
spread floor of spec section 4.1 ("spread floor to avoid
divide-by-near-zero"); the floor constant is not fixed by the spec and is
taken as 1. -/
def scaleDivisor (xs : List ℚ) : ℚ :=
  max 1 (spreadQ xs)

/-- Modelled from the spec: `scale_signal` (spec section 4.1) rescales the
trimmed samples so the distribution is standardized: subtract the robust
center and divide by the floored spread. -/
def scale_signal (xs : List ℚ) : List ℚ :=
  xs.map (fun x => (x - medianQ xs) / scaleDivisor xs)

/-- Modelled from the spec: `trim_signal` (spec section 4.1) scans a
bounded prefix for the first sample crossing a level threshold `th` and
returns that index, defaulting to 0 when no sample crosses. -/
def trim_signal (th : ℚ) (xs : List ℚ) : Nat :=
  (xs.findIdx? (fun x => th < x)).getD 0

/-- A decoded chunk: called subsequence, per-base quality scores, and the
move table (spec section 3, ChunkCall). -/
structure ChunkCall where
  seq : List Char
  qstring : List Char
  moves : List Nat
deriving DecidableEq

/-- Modelled from the spec: the per-chunk retained pieces computed by
`stitch_chunks` (spec section 4.5).  `cut c c'` abstracts the cut-point
heuristic of a boundary (spec section 9 specifies it as a pure function
and leaves the tie-break open): it yields the call index in `c` up to
which `c`'s calls are kept and the call index in `c'` from which `c'`'s
calls are kept.  `from` is the index from which the current chunk's calls
are retained (0 for the first chunk; the last chunk's trailing calls are
never trimmed). -/
def stitchParts (cut : ChunkCall → ChunkCall → Nat × Nat) :
    Nat → List ChunkCall → List (List Char × List Char)
  | _, [] => []
  | st, [c] => [(c.seq.drop st, c.qstring.drop st)]
  | st, c :: c' :: rest =>
      ((c.seq.take (cut c c').1).drop st, (c.qstring.take (cut c c').1).drop st) ::
        stitchParts cut (cut c c').2 (c' :: rest)

/-- Modelled from the spec: `stitch_chunks` (spec section 4.5) concatenates
the retained pieces of the ordered chunk calls into one sequence and one
quality string, preserving call order. -/
def stitchChunks (cut : ChunkCall → ChunkCall → Nat × Nat)
    (calls : List ChunkCall) : List Char × List Char :=
  (((stitchParts cut 0 calls).map Prod.fst).flatten,
   ((stitchParts cut 0 calls).map Prod.snd).flatten)

/-- One read from the input stream: identifier and raw samples. -/
structure Read where
  rid : String
  raw : List ℚ
deriving DecidableEq

/-- One emitted record: identifier, stitched sequence and quality string
(the tuple handed to `write_to_file` at line 302). -/
structure Output where
  rid : String
  seq : List Char
  qstring : List Char
deriving DecidableEq

/-- The slice of the signal a chunk views. -/
def chunkSlice (signal : List ℚ) (c : Chunk) : List ℚ :=
  (signal.drop c.start).take c.len

/-- The per-read body of the main loop (lines 267-303): convert to signal,
trim a bounded prefix (cap 8000, line 276), scale, chunk, basecall each
chunk (the pretrained model and decoder are the opaque function `forward`,
per spec sections 1 and 6), stitch, and form the emitted record.  `cut` is
the stitcher's cut-point heuristic and `th` the trim threshold. -/
def processRead (forward : List ℚ → ChunkCall)
    (cut : ChunkCall → ChunkCall → Nat × Nat) (th : ℚ)
    (opt : OptT) (r : Read) : Output :=
  let trimmed := r.raw.drop (trim_signal th (r.raw.take 8000))
  let signal := scale_signal trimmed
  let cks := chunksOf signal.length opt.chunkSize.toNat opt.overlap.toNat
  let calls := cks.map (fun c => forward (chunkSlice signal c))
  let stitched := stitchChunks cut calls
  ⟨r.rid, stitched.1, stitched.2⟩

/-- How the input stream ends: `slow5_get_next` returning negative with
`slow5_errno == SLOW5_ERR_EOF` (clean end of file) or with a
non-end-of-stream error (lines 256-264). -/
inductive StreamEnd where
  | eof
  | err
deriving DecidableEq

/-- Exit status of `basecaller_main` after the loop: `return 0` on the
clean-EOF path (the post-loop `ret != SLOW5_ERR_EOF` check passes there,
lines 308-331), `return EXIT_FAILURE` on a reader error (line 260). -/
inductive ExitStatus where
  | success
  | failure
deriving DecidableEq

/-- The main `while (1)` loop of `basecaller_main` (lines 255-305): each
successfully fetched read is processed and written in fetch order; a clean
EOF breaks the loop and the function returns 0; a reader error returns
EXIT_FAILURE at once, producing no output for the failed fetch.  The loop
body never consults `opt.debug_break` (parsed at line 173 but unused). -/
def mainLoop (proc : Read → Output) (opt : OptT) :
    List Read → StreamEnd → List Output × ExitStatus
  | [], .eof => ([], .success)
  | [], .err => ([], .failure)
  | r :: rs, e =>
      let rest := mainLoop proc opt rs e
      (proc r :: rest.1, rest.2)

/-! ## Helper lemmas: chunker arithmetic -/

lemma lt_ceilDiv_iff {s : Nat} (m i : Nat) (hs : 0 < s) :
    i < (m + s - 1) / s ↔ i * s < m := by
  rw [Nat.lt_iff_add_one_le, Nat.le_div_iff_mul_le hs, Nat.succ_mul]
  omega

lemma le_numChunks_mul_add (L C s : Nat) (hs : 0 < s) :
    L ≤ numChunks L C s * s + C := by
  unfold numChunks
  by_cases hLC : L ≤ C
  · simp [hLC]
  · rw [if_neg hLC]
    have h : ¬ ((L - C + s - 1) / s * s < L - C) := by
      intro hcon
      exact absurd ((lt_ceilDiv_iff (L - C) _ hs).mpr hcon) (lt_irrefl _)
    omega

lemma numChunks_lt_imp (L C s i : Nat) (hs : 0 < s)
    (h : i < numChunks L C s) : i * s + C < L := by
  unfold numChunks at h
  by_cases hLC : L ≤ C
  · simp [hLC] at h
  · rw [if_neg hLC] at h
    have := (lt_ceilDiv_iff (L - C) i hs).mp h
    omega

lemma numChunks_mul_le (L C s : Nat) (hs : 0 < s) (hsC : s ≤ C) :
    numChunks L C s * s ≤ L := by
  unfold numChunks
  by_cases hLC : L ≤ C
  · simp [hLC]
  · rw [if_neg hLC]
    have := Nat.div_mul_le_self (L - C + s - 1) s
    omega

lemma chunksOf_length (L C O : Nat) :
    (chunksOf L C O).length = numChunks L C (C - O) + 1 := by
  simp [chunksOf]

lemma chunksOf_get (L C O i : Nat) (h : i < (chunksOf L C O).length) :
    (chunksOf L C O).get ⟨i, h⟩ =
      ⟨i * (C - O), min C (L - i * (C - O))⟩ := by
  simp [chunksOf, List.get_eq_getElem]

lemma chunksOf_cover (L C O : Nat) (hO : O < C) :
    ∀ x, x < L → ∃ c ∈ chunksOf L C O, c.start ≤ x ∧ x < c.start + c.len := by
  intro x hx
  have hs : 0 < C - O := by omega
  by_cases hxs : x / (C - O) ≤ numChunks L C (C - O)
  · refine ⟨⟨x / (C - O) * (C - O), min C (L - x / (C - O) * (C - O))⟩, ?_, ?_, ?_⟩
    · exact List.mem_map.mpr ⟨x / (C - O), List.mem_range.mpr (by omega), rfl⟩
    · exact Nat.div_mul_le_self x (C - O)
    · dsimp only
      have h1 := Nat.div_add_mod x (C - O)
      have h2 := Nat.mod_lt x hs
      have h3 : (C - O) * (x / (C - O)) = x / (C - O) * (C - O) := Nat.mul_comm _ _
      omega
  · refine ⟨⟨numChunks L C (C - O) * (C - O),
      min C (L - numChunks L C (C - O) * (C - O))⟩, ?_, ?_, ?_⟩
    · exact List.mem_map.mpr
        ⟨numChunks L C (C - O), List.mem_range.mpr (by omega), rfl⟩
    · dsimp only
      have h2 : (numChunks L C (C - O) + 1) * (C - O) ≤ x / (C - O) * (C - O) :=
        Nat.mul_le_mul_right _ (by omega)
      have h3 := Nat.div_mul_le_self x (C - O)
      have h4 : (numChunks L C (C - O) + 1) * (C - O) =
          numChunks L C (C - O) * (C - O) + (C - O) := by ring
      omega
    · dsimp only
      have h5 := le_numChunks_mul_add L C (C - O) hs
      have h2 : (numChunks L C (C - O) + 1) * (C - O) ≤ x / (C - O) * (C - O) :=
        Nat.mul_le_mul_right _ (by omega)
      have h3 := Nat.div_mul_le_self x (C - O)
      have h4 : (numChunks L C (C - O) + 1) * (C - O) =
          numChunks L C (C - O) * (C - O) + (C - O) := by ring
      omega

lemma chunksOf_within (L C O : Nat) (hO : O < C) :
    ∀ c ∈ chunksOf L C O, c.start + c.len ≤ L := by
  intro c hc
  have hs : 0 < C - O := by omega
  obtain ⟨i, hi, rfl⟩ := List.mem_map.mp hc
  have hi' : i ≤ numChunks L C (C - O) := by
    have := List.mem_range.mp hi; omega
  have h1 : i * (C - O) ≤ numChunks L C (C - O) * (C - O) :=
    Nat.mul_le_mul_right _ hi'
  have h2 := numChunks_mul_le L C (C - O) hs (by omega)
  dsimp only
  omega

lemma chunksOf_nonfinal_len (L C O i : Nat) (hO : O < C)
    (h : i + 1 < (chunksOf L C O).length) :
    ((chunksOf L C O).get ⟨i, Nat.lt_of_succ_lt h⟩).len = C := by
  have hs : 0 < C - O := by omega
  rw [chunksOf_get]
  have hi : i < numChunks L C (C - O) := by
    rw [chunksOf_length] at h; omega
  have h2 := numChunks_lt_imp L C (C - O) i hs hi
  dsimp only
  omega

lemma chunksOf_consecutive (L C O i : Nat) (hO : O < C)
    (h : i + 1 < (chunksOf L C O).length) :
    ((chunksOf L C O).get ⟨i, Nat.lt_of_succ_lt h⟩).start <
      ((chunksOf L C O).get ⟨i + 1, h⟩).start ∧
    ((chunksOf L C O).get ⟨i, Nat.lt_of_succ_lt h⟩).start +
      ((chunksOf L C O).get ⟨i, Nat.lt_of_succ_lt h⟩).len =
      ((chunksOf L C O).get ⟨i + 1, h⟩).start + O := by
  have hlen := chunksOf_nonfinal_len L C O i hO h
  rw [chunksOf_get] at hlen
  rw [chunksOf_get, chunksOf_get]
  dsimp only at hlen ⊢
  have h4 : (i + 1) * (C - O) = i * (C - O) + (C - O) := by ring
  exact ⟨by omega, by omega⟩

/-! ## Helper lemmas: stitcher -/

lemma stitchParts_length (cut : ChunkCall → ChunkCall → Nat × Nat) :
    ∀ (cs : List ChunkCall) (st : Nat), (stitchParts cut st cs).length = cs.length
  | [], _ => rfl
  | [_], _ => rfl
  | c :: c' :: rest, st => by
      simp only [stitchParts, List.length_cons]
      rw [stitchParts_length cut (c' :: rest)]
      simp

lemma stitchParts_decomp (cut : ChunkCall → ChunkCall → Nat × Nat) :
    ∀ (cs : List ChunkCall) (st i : Nat) (h : i < (stitchParts cut st cs).length)
      (h' : i < cs.length),
      (∃ pre post, pre ++ ((stitchParts cut st cs).get ⟨i, h⟩).1 ++ post =
          (cs.get ⟨i, h'⟩).seq) ∧
      (∃ pre post, pre ++ ((stitchParts cut st cs).get ⟨i, h⟩).2 ++ post =
          (cs.get ⟨i, h'⟩).qstring)
  | [], _, i, _, h' => absurd h' (by simp)
  | [c], st, 0, _, _ => by
      refine ⟨⟨c.seq.take st, [], ?_⟩, ⟨c.qstring.take st, [], ?_⟩⟩ <;>
        simp [stitchParts, List.take_append_drop]
  | [c], st, i + 1, h, _ => by
      simp [stitchParts] at h
  | c :: c' :: rest, st, 0, _, _ => by
      constructor
      · refine ⟨(c.seq.take (cut c c').1).take st, c.seq.drop (cut c c').1, ?_⟩
        simp only [stitchParts, List.get_eq_getElem, List.getElem_cons_zero]
        rw [List.take_append_drop, List.take_append_drop]
      · refine ⟨(c.qstring.take (cut c c').1).take st, c.qstring.drop (cut c c').1, ?_⟩
        simp only [stitchParts, List.get_eq_getElem, List.getElem_cons_zero]
        rw [List.take_append_drop, List.take_append_drop]
  | c :: c' :: rest, st, i + 1, h, h' => by
      have hh : i < (stitchParts cut (cut c c').2 (c' :: rest)).length := by
        simp only [stitchParts, List.length_cons] at h ⊢
        omega
      have hh' : i < (c' :: rest).length := by
        simp only [List.length_cons] at h' ⊢
        omega
      have ih := stitchParts_decomp cut (c' :: rest) (cut c c').2 i hh hh'
      simpa only [stitchParts, List.get_eq_getElem, List.getElem_cons_succ] using ih

/-! ## Helper lemmas: argument handling -/

/-- The option events the spec's InvalidConfiguration taxonomy speaks
about: chunk size (`-c`), overlap (`-p`) and batch size (`-K`). -/
def isCfgTok : CliTok → Bool
  | .optK _ => true
  | .optC _ => true
  | .optP _ => true
  | _ => false

/-- The numeric argument of a configuration option event (1 on the
others, which carry no bound that the taxonomy mentions). -/
def tokVal : CliTok → Int
  | .optK v => v
  | .optC v => v
  | .optP v => v
  | _ => 1

lemma parseLoop_cfg_ok (ts : List CliTok) : ∀ (o : OptT) (b : Bool),
    (∀ t ∈ ts, isCfgTok t = true) → (∀ t ∈ ts, 1 ≤ tokVal t) →
    ∃ o', parseLoop o b ts = .ok (o', b) := by
  induction ts with
  | nil => exact fun o b _ _ => ⟨o, rfl⟩
  | cons t ts ih =>
      intro o b hcfg hval
      have hc0 := hcfg t (List.mem_cons_self t ts)
      have hv0 := hval t (List.mem_cons_self t ts)
      have hcfg' : ∀ u ∈ ts, isCfgTok u = true :=
        fun u hu => hcfg u (List.mem_cons_of_mem _ hu)
      have hval' : ∀ u ∈ ts, 1 ≤ tokVal u :=
        fun u hu => hval u (List.mem_cons_of_mem _ hu)
      cases t with
      | optK v =>
          have h1 : 1 ≤ v := by simpa [tokVal] using hv0
          simp only [parseLoop, applyTok, if_neg (by omega : ¬ v < 1)]
          exact ih _ b hcfg' hval'
      | optC v =>
          have h1 : 1 ≤ v := by simpa [tokVal] using hv0
          simp only [parseLoop, applyTok, if_neg (by omega : ¬ v < 1)]
          exact ih _ b hcfg' hval'
      | optP v =>
          have h1 : 1 ≤ v := by simpa [tokVal] using hv0
          simp only [parseLoop, applyTok, if_neg (by omega : ¬ v < 1)]
          exact ih _ b hcfg' hval'
      | optB v => simp [isCfgTok] at hc0
      | optT v => simp [isCfgTok] at hc0
      | optVerb v => simp [isCfgTok] at hc0
      | optX s => simp [isCfgTok] at hc0
      | optO ok => simp [isCfgTok] at hc0
      | optR v => simp [isCfgTok] at hc0
      | optVersion => simp [isCfgTok] at hc0
      | optH => simp [isCfgTok] at hc0
      | optDebugBreak v => simp [isCfgTok] at hc0
      | optProfileCpu b' => simp [isCfgTok] at hc0
      | optAccel b' => simp [isCfgTok] at hc0
      | optEmitFastq b' => simp [isCfgTok] at hc0

lemma parseLoop_cfg_fail (ts : List CliTok) : ∀ (o : OptT) (b : Bool),
    (∀ t ∈ ts, isCfgTok t = true) → ¬ (∀ t ∈ ts, 1 ≤ tokVal t) →
    parseLoop o b ts = .error .exitFailure := by
  induction ts with
  | nil => exact fun o b _ hbad => absurd (fun t ht => absurd ht (by simp)) hbad
  | cons t ts ih =>
      intro o b hcfg hbad
      have hc0 := hcfg t (List.mem_cons_self t ts)
      have hcfg' : ∀ u ∈ ts, isCfgTok u = true :=
        fun u hu => hcfg u (List.mem_cons_of_mem _ hu)
      by_cases hv0 : 1 ≤ tokVal t
      · have hbad' : ¬ (∀ u ∈ ts, 1 ≤ tokVal u) := by
          intro hall
          apply hbad
          intro u hu
          rcases List.mem_cons.mp hu with rfl | hu'
          · exact hv0
          · exact hall u hu'
        cases t with
        | optK v =>
            have h1 : 1 ≤ v := by simpa [tokVal] using hv0
            simp only [parseLoop, applyTok, if_neg (by omega : ¬ v < 1)]
            exact ih _ b hcfg' hbad'
        | optC v =>
            have h1 : 1 ≤ v := by simpa [tokVal] using hv0
            simp only [parseLoop, applyTok, if_neg (by omega : ¬ v < 1)]
            exact ih _ b hcfg' hbad'
        | optP v =>
            have h1 : 1 ≤ v := by simpa [tokVal] using hv0
            simp only [parseLoop, applyTok, if_neg (by omega : ¬ v < 1)]
            exact ih _ b hcfg' hbad'
        | optB v => simp [isCfgTok] at hc0
        | optT v => simp [isCfgTok] at hc0
        | optVerb v => simp [isCfgTok] at hc0
        | optX s => simp [isCfgTok] at hc0
        | optO ok => simp [isCfgTok] at hc0
        | optR v => simp [isCfgTok] at hc0
        | optVersion => simp [isCfgTok] at hc0
        | optH => simp [isCfgTok] at hc0
        | optDebugBreak v => simp [isCfgTok] at hc0
        | optProfileCpu b' => simp [isCfgTok] at hc0
        | optAccel b' => simp [isCfgTok] at hc0
        | optEmitFastq b' => simp [isCfgTok] at hc0
      · cases t with
        | optK v =>
            have h1 : v < 1 := by
              simp only [tokVal] at hv0; omega
            simp only [parseLoop, applyTok, if_pos h1]
        | optC v =>
            have h1 : v < 1 := by
              simp only [tokVal] at hv0; omega
            simp only [parseLoop, applyTok, if_pos h1]
        | optP v =>
            have h1 : v < 1 := by
              simp only [tokVal] at hv0; omega
            simp only [parseLoop, applyTok, if_pos h1]
        | optB v => simp [isCfgTok] at hc0
        | optT v => simp [isCfgTok] at hc0
        | optVerb v => simp [isCfgTok] at hc0
        | optX s => simp [isCfgTok] at hc0
        | optO ok => simp [isCfgTok] at hc0
        | optR v => simp [isCfgTok] at hc0
        | optVersion => simp [isCfgTok] at hc0
        | optH => simp [isCfgTok] at hc0
        | optDebugBreak v => simp [isCfgTok] at hc0
        | optProfileCpu b' => simp [isCfgTok] at hc0
        | optAccel b' => simp [isCfgTok] at hc0
        | optEmitFastq b' => simp [isCfgTok] at hc0

/-- Whether an option event lets the parse loop continue: any option that
the loop of `basecaller_main` handles without calling `exit` — i.e. any
event other than `-V`, a numeric option value failing its validation, or
an output file that fails to open. -/
def noEarlyExit : CliTok → Bool
  | .optB v => decide (0 < v)
  | .optK v => decide (1 ≤ v)
  | .optT v => decide (1 ≤ v)
  | .optC v => decide (1 ≤ v)
  | .optP v => decide (1 ≤ v)
  | .optR v => decide (1 ≤ v)
  | .optO ok => ok
  | .optVersion => false
  | _ => true

/-- Whether the option events contain `-h`. -/
def hasH : List CliTok → Bool
  | [] => false
  | .optH :: _ => true
  | _ :: ts => hasH ts

lemma parseLoop_noEarlyExit (ts : List CliTok) : ∀ (o : OptT) (b : Bool),
    (∀ t ∈ ts, noEarlyExit t = true) →
    ∃ o', parseLoop o b ts = .ok (o', b || hasH ts) := by
  induction ts with
  | nil => exact fun o b _ => ⟨o, by simp [parseLoop, hasH]⟩
  | cons t ts ih =>
      intro o b hne
      have hn0 := hne t (List.mem_cons_self t ts)
      have hne' : ∀ u ∈ ts, noEarlyExit u = true :=
        fun u hu => hne u (List.mem_cons_of_mem _ hu)
      cases t with
      | optB v =>
          have h1 : 0 < v := by simpa [noEarlyExit] using hn0
          simp only [parseLoop, applyTok, if_neg (by omega : ¬ v ≤ 0), hasH]
          exact ih _ b hne'
      | optK v =>
          have h1 : 1 ≤ v := by simpa [noEarlyExit] using hn0
          simp only [parseLoop, applyTok, if_neg (by omega : ¬ v < 1), hasH]
          exact ih _ b hne'
      | optT v =>
          have h1 : 1 ≤ v := by simpa [noEarlyExit] using hn0
          simp only [parseLoop, applyTok, if_neg (by omega : ¬ v < 1), hasH]
          exact ih _ b hne'
      | optVerb v =>
          simp only [parseLoop, applyTok, hasH]
          exact ih _ b hne'
      | optX s =>
          simp only [parseLoop, applyTok, hasH]
          exact ih _ b hne'
      | optC v =>
          have h1 : 1 ≤ v := by simpa [noEarlyExit] using hn0
          simp only [parseLoop, applyTok, if_neg (by omega : ¬ v < 1), hasH]
          exact ih _ b hne'
      | optP v =>
          have h1 : 1 ≤ v := by simpa [noEarlyExit] using hn0
          simp only [parseLoop, applyTok, if_neg (by omega : ¬ v < 1), hasH]
          exact ih _ b hne'
      | optO ok =>
          have h1 : ok = true := by simpa [noEarlyExit] using hn0
          simp only [parseLoop, applyTok, h1, if_pos rfl, hasH]
          exact ih _ b hne'
      | optR v =>
          have h1 : 1 ≤ v := by simpa [noEarlyExit] using hn0
          simp only [parseLoop, applyTok, if_neg (by omega : ¬ v < 1), hasH]
          exact ih _ b hne'
      | optVersion => simp [noEarlyExit] at hn0
      | optH =>
          simp only [parseLoop, applyTok, hasH, Bool.or_true]
          obtain ⟨o', ho'⟩ := ih o true hne'
          exact ⟨o', by simpa using ho'⟩
      | optDebugBreak v =>
          simp only [parseLoop, applyTok, hasH]
          exact ih _ b hne'
      | optProfileCpu b' =>
          simp only [parseLoop, applyTok, hasH]
          exact ih _ b hne'
      | optAccel b' =>
          simp only [parseLoop, applyTok, hasH]
          exact ih _ b hne'
      | optEmitFastq b' =>
          simp only [parseLoop, applyTok, hasH]
          exact ih _ b hne'

/-! ## Helper lemmas: main loop -/

lemma mainLoop_eof (proc : Read → Output) (opt : OptT) (reads : List Read) :
    mainLoop proc opt reads .eof = (reads.map proc, .success) := by
  induction reads with
  | nil => rfl
  | cons r rs ih => simp [mainLoop, ih]

lemma mainLoop_err (proc : Read → Output) (opt : OptT) (reads : List Read) :
    mainLoop proc opt reads .err = (reads.map proc, .failure) := by
  induction reads with
  | nil => rfl
  | cons r rs ih => simp [mainLoop, ih]

/-! ## Helper lemmas: signal scaling -/

lemma medianQ_replicate (n : Nat) (v : ℚ) (hn : 0 < n) :
    medianQ (List.replicate n v) = v := by
  unfold medianQ
  have hperm := List.perm_insertionSort (fun a b : ℚ => a ≤ b) (List.replicate n v)
  have hsorted : (List.replicate n v).insertionSort (fun a b => a ≤ b) =
      List.replicate n v := by
    refine List.eq_replicate_iff.mpr ⟨by simp [hperm.length_eq], ?_⟩
    intro b hb
    exact List.eq_of_mem_replicate (hperm.mem_iff.mp hb)
  rw [hsorted]
  have hidx : (List.replicate n v).length = n := List.length_replicate n v
  rw [hidx]
  have hlt : (n - 1) / 2 < n := by omega
  rw [List.getD_eq_getElem _ _ (by simpa using hlt)]
  simp

lemma scaleDivisor_replicate (n : Nat) (v : ℚ) :
    scaleDivisor (List.replicate n v) = 1 := by
  unfold scaleDivisor spreadQ
  rcases Nat.eq_zero_or_pos n with hn | hn
  · subst hn
    simp [medianQ]
  · rw [medianQ_replicate n v hn]
    have hmap : (List.replicate n v).map (fun x => |x - v|) =
        List.replicate n 0 := by
      simp [List.map_replicate]
    rw [hmap, medianQ_replicate n 0 hn]
    simp

lemma scale_signal_replicate (n : Nat) (v : ℚ) :
    scale_signal (List.replicate n v) = List.replicate n 0 := by
  unfold scale_signal
  rcases Nat.eq_zero_or_pos n with hn | hn
  · subst hn; rfl
  · rw [List.map_replicate, medianQ_replicate n v hn, scaleDivisor_replicate n v]
    simp

/-! ## Claim theorems -/

/-- C1, counterexample: the claim says an overlap greater than or equal to
the chunk size makes the program fail fast, and that overlap 0 is
accepted.  On the command line `-c 10 -p 10` (overlap equal to chunk
size, two positional arguments) `basecaller_main` accepts the
configuration and proceeds to process reads: no check relates overlap to
chunk size. -/
theorem c1_counterexample :
    parseArgs [CliTok.optC 10, CliTok.optP 10] 2 =
      ParseOutcome.proceed { defaultOpt with chunkSize := 10, overlap := 10 } ∧
    ({ defaultOpt with chunkSize := 10, overlap := 10 } : OptT).chunkSize ≤
      ({ defaultOpt with chunkSize := 10, overlap := 10 } : OptT).overlap := by
  exact ⟨by decide, by decide⟩

/-- C1, amended: configuration validation checks each numeric option
independently at parse time: for any command line of chunk-size, overlap
and batch-size options, the program exits with failure before any read is
processed if and only if some provided value is less than 1; when all
provided values are at least 1 (and two positional arguments are given)
the configuration is accepted — even when overlap is greater than or
equal to chunk size, while overlap 0 is rejected. -/
theorem c1_validation_iff (ts : List CliTok)
    (hcfg : ∀ t ∈ ts, isCfgTok t = true) :
    (parseArgs ts 2 = ParseOutcome.exitFailure ↔ ¬ (∀ t ∈ ts, 1 ≤ tokVal t)) ∧
    ((∀ t ∈ ts, 1 ≤ tokVal t) → ∃ o, parseArgs ts 2 = ParseOutcome.proceed o) := by
  by_cases hv : ∀ t ∈ ts, 1 ≤ tokVal t
  · obtain ⟨o', ho'⟩ := parseLoop_cfg_ok ts defaultOpt false hcfg hv
    have hp : parseArgs ts 2 = ParseOutcome.proceed o' := by
      unfold parseArgs
      rw [ho']
      simp
    exact ⟨by rw [hp]; exact iff_of_false (by simp) (not_not_intro hv),
      fun _ => ⟨o', hp⟩⟩
  · have hfail := parseLoop_cfg_fail ts defaultOpt false hcfg hv
    have hp : parseArgs ts 2 = ParseOutcome.exitFailure := by
      unfold parseArgs
      rw [hfail]
    exact ⟨iff_of_true hp hv, fun hall => absurd hall hv⟩

/-- C1, witness: the amended validation statement at the default-like
command line `-c 8000 -p 150 -K 512`. -/
theorem c1_validation_witness :
    parseArgs [CliTok.optC 8000, CliTok.optP 150, CliTok.optK 512] 2 =
        ParseOutcome.exitFailure ↔
      ¬ (∀ t ∈ [CliTok.optC 8000, CliTok.optP 150, CliTok.optK 512],
          1 ≤ tokVal t) :=
  (c1_validation_iff _ (by decide)).1

/-- C2: for every normalized signal length `L`, chunk size `C > 0` and
overlap `O` with `0 ≤ O < C` (`O < C` implies `C > 0`), the chunks of the
spec-modelled Chunker (i) cover `[0, L)` with no gaps and stay inside
`[0, L)`, (ii) every chunk except possibly the final one has length
exactly `C`, and (iii) consecutive chunks appear in strictly increasing
start-offset order and overlap by exactly `O` samples in source offset. -/
theorem c2_chunker_properties (L C O : Nat) (hO : O < C) :
    (∀ x, x < L → ∃ c ∈ chunksOf L C O, c.start ≤ x ∧ x < c.start + c.len) ∧
    (∀ c ∈ chunksOf L C O, c.start + c.len ≤ L) ∧
    (∀ i (h : i + 1 < (chunksOf L C O).length),
      ((chunksOf L C O).get ⟨i, Nat.lt_of_succ_lt h⟩).len = C) ∧
    (∀ i (h : i + 1 < (chunksOf L C O).length),
      ((chunksOf L C O).get ⟨i, Nat.lt_of_succ_lt h⟩).start <
        ((chunksOf L C O).get ⟨i + 1, h⟩).start ∧
      ((chunksOf L C O).get ⟨i, Nat.lt_of_succ_lt h⟩).start +
        ((chunksOf L C O).get ⟨i, Nat.lt_of_succ_lt h⟩).len =
        ((chunksOf L C O).get ⟨i + 1, h⟩).start + O) :=
  ⟨chunksOf_cover L C O hO, chunksOf_within L C O hO,
   fun i h => chunksOf_nonfinal_len L C O i hO h,
   fun i h => chunksOf_consecutive L C O i hO h⟩

/-- C2, witness: coverage of offset 9 for a signal of length 20, chunk
size 8, overlap 3. -/
theorem c2_chunker_witness :
    (3 : Nat) < 8 ∧
    (∃ c ∈ chunksOf 20 8 3, c.start ≤ 9 ∧ 9 < c.start + c.len) :=
  ⟨by decide, (c2_chunker_properties 20 8 3 (by decide)).1 9 (by decide)⟩

/-- C4: finished reads are emitted in input order (the main loop is
sequential: identifiers of the emitted records equal the input read
identifiers, in order), chunk starts are strictly increasing within a
read, and the stitched sequence of a read is the in-order concatenation
of one retained piece per chunk call, each piece a contiguous part of
that chunk's called sequence — so no reordering occurs across reads or
within a read. -/
theorem c4_output_order (forward : List ℚ → ChunkCall)
    (cut : ChunkCall → ChunkCall → Nat × Nat) (th : ℚ) (opt : OptT)
    (reads : List Read) (hC : 0 < opt.chunkSize)
    (hO : opt.overlap < opt.chunkSize) :
    ((mainLoop (processRead forward cut th opt) opt reads .eof).1.map Output.rid =
      reads.map Read.rid) ∧
    (∀ L i (h : i + 1 < (chunksOf L opt.chunkSize.toNat opt.overlap.toNat).length),
      ((chunksOf L opt.chunkSize.toNat opt.overlap.toNat).get
          ⟨i, Nat.lt_of_succ_lt h⟩).start <
        ((chunksOf L opt.chunkSize.toNat opt.overlap.toNat).get ⟨i + 1, h⟩).start) ∧
    (∀ cs : List ChunkCall,
      (stitchChunks cut cs).1 = ((stitchParts cut 0 cs).map Prod.fst).flatten ∧
      (stitchParts cut 0 cs).length = cs.length ∧
      ∀ i (h : i < (stitchParts cut 0 cs).length) (h' : i < cs.length),
        ∃ pre post, pre ++ ((stitchParts cut 0 cs).get ⟨i, h⟩).1 ++ post =
          (cs.get ⟨i, h'⟩).seq) := by
  have hO' : opt.overlap.toNat < opt.chunkSize.toNat := by omega
  refine ⟨?_, ?_, ?_⟩
  · rw [mainLoop_eof]
    simp [processRead, List.map_map, Function.comp]
  · exact fun L i h => (chunksOf_consecutive L _ _ i hO' h).1
  · exact fun cs => ⟨rfl, stitchParts_length cut cs 0,
      fun i h h' => (stitchParts_decomp cut cs 0 i h h').1⟩

/-- C4, witness: output identifiers equal input identifiers in order for
a concrete two-read stream. -/
theorem c4_order_witness :
    ((mainLoop (processRead (fun _ => ⟨[], [], []⟩) (fun _ _ => (0, 0)) 0 defaultOpt)
        defaultOpt [⟨"a", []⟩, ⟨"b", []⟩] .eof).1.map Output.rid =
      ([⟨"a", []⟩, ⟨"b", []⟩] : List Read).map Read.rid) :=
  (c4_output_order (fun _ => ⟨[], [], []⟩) (fun _ _ => (0, 0)) 0 defaultOpt
    [⟨"a", []⟩, ⟨"b", []⟩] (by decide) (by decide)).1

/-- C5, code-bug evaluation: with `--debug-break 1` set (the program's
own help text says "break after processing the specified no. of
batches"), a three-read input stream still produces three outputs: the
main loop of `basecaller_main` never consults `opt.debug_break`, so no
early stop ever happens. -/
theorem c5_debug_break_ignored :
    (mainLoop (processRead (fun _ => ⟨[], [], []⟩) (fun _ _ => (0, 0)) 0
          { defaultOpt with debugBreak := 1 })
        { defaultOpt with debugBreak := 1 }
        [⟨"r1", []⟩, ⟨"r2", []⟩, ⟨"r3", []⟩] .eof).1.length = 3 ∧
    ({ defaultOpt with debugBreak := 1 } : OptT).debugBreak = 1 :=
  ⟨rfl, rfl⟩

/-- C6, counterexample: with `num-runners` configured to 2, the number of
`ModelRunner` instances constructed by `basecaller_main` is 1, not 2:
line 249 constructs exactly one runner and `opt.num_runners` is never
used afterwards. -/
theorem c6_counterexample :
    (createdRunners "model" { defaultOpt with numRunners := 2 }).length = 1 ∧
    ({ defaultOpt with numRunners := 2 } : OptT).numRunners = 2 :=
  ⟨rfl, rfl⟩

/-- C6, amended: the `-r` option is parsed and validated, but for every
configuration the driver constructs exactly one Model Runner instance,
independently of the configured `num-runners` value. -/
theorem c6_single_runner (modelPath : String) (o : OptT) :
    (createdRunners modelPath o).length = 1 :=
  rfl

/-- C7: for every input stream, a clean end-of-stream stops the loop and
the run terminates with success status having emitted exactly one output
per read, in order; a non-end-of-stream reader error terminates with
failure status, the outputs being exactly those of the reads fetched
before the error — no partial output exists for the failed fetch. -/
theorem c7_stream_end (proc : Read → Output) (opt : OptT) (reads : List Read) :
    mainLoop proc opt reads .eof = (reads.map proc, .success) ∧
    mainLoop proc opt reads .err = (reads.map proc, .failure) :=
  ⟨mainLoop_eof proc opt reads, mainLoop_err proc opt reads⟩

/-- C8: a read whose signal length is at most the chunk size yields
exactly one chunk, and stitching a single chunk call returns exactly its
sequence and quality string, for every cut-point heuristic. -/
theorem c8_stitch_single (L C O : Nat) (cut : ChunkCall → ChunkCall → Nat × Nat)
    (c : ChunkCall) (hL : L ≤ C) :
    (chunksOf L C O).length = 1 ∧
    stitchChunks cut [c] = (c.seq, c.qstring) := by
  constructor
  · simp [chunksOf_length, numChunks, hL]
  · simp [stitchChunks, stitchParts]

/-- C8, witness: a 5-sample signal with chunk size 8000 gives one chunk,
and stitching one concrete chunk call is the identity on it. -/
theorem c8_stitch_witness :
    (chunksOf 5 8000 150).length = 1 ∧
    stitchChunks (fun _ _ => (0, 0)) [⟨['A'], ['!'], [0]⟩] = (['A'], ['!']) :=
  c8_stitch_single 5 8000 150 (fun _ _ => (0, 0)) ⟨['A'], ['!'], [0]⟩ (by decide)

/-- C9: for every constant-valued signal, the divisor used by the
spec-modelled scaling step equals the spread floor 1 — so no division by
zero occurs — and the scaled output is the all-zero signal, which is
finite and bounded. -/
theorem c9_scale_constant (n : Nat) (v : ℚ) :
    scaleDivisor (List.replicate n v) = 1 ∧
    scale_signal (List.replicate n v) = List.replicate n 0 :=
  ⟨scaleDivisor_replicate n v, scale_signal_replicate n v⟩

/-- C10, counterexample: the claim says every command line containing
`-h` prints help to stdout and exits with success; but `-h -K 0` exits
with failure from the batch-size validation before the help check is
reached, printing no help. -/
theorem c10_counterexample :
    parseArgs [CliTok.optH, CliTok.optK 0] 2 = ParseOutcome.exitFailure := by
  decide

/-- C10, amended: for every command line none of whose options triggers
an early exit (no `-V`, no option value failing its validation, no
failed output-file open): if it contains `-h`, the program prints the
help message to stdout and exits with success — before opening any input
and regardless of the positional-argument count; if it does not contain
`-h` and the positional-argument count differs from two, the program
prints the help message to stderr and exits with failure. -/
theorem c10_help_flag (ts : List CliTok) (npos : Nat)
    (h : ∀ t ∈ ts, noEarlyExit t = true) :
    (hasH ts = true → parseArgs ts npos = ParseOutcome.helpStdoutExit) ∧
    (hasH ts = false → npos ≠ 2 → parseArgs ts npos = ParseOutcome.helpStderrExit) := by
  obtain ⟨o', ho'⟩ := parseLoop_noEarlyExit ts defaultOpt false h
  constructor
  · intro hH
    unfold parseArgs
    rw [ho', hH]
    simp
  · intro hH hnp
    unfold parseArgs
    rw [ho', hH]
    have hb : (npos != 2) = true := by simpa using hnp
    simp [hb]

/-- C10, witness: `-h` alone, with zero positional arguments, prints
help to stdout and exits with success. -/
theorem c10_help_witness :
    parseArgs [CliTok.optH] 0 = ParseOutcome.helpStdoutExit :=
  (c10_help_flag [CliTok.optH] 0 (by decide)).1 (by decide)

end Slorado
